import Mathlib

set_option maxRecDepth 4000

-- Mathlib seals the `Rat` arithmetic operations as irreducible, which stops
-- `decide` from evaluating the embedded parsers on concrete inputs; the
-- kernel ignores reducibility, so re-opening them only restores evaluation.
set_option allowUnsafeReducibility true in
attribute [semireducible] Rat.mul Rat.add Rat.sub Rat.div Rat.neg Rat.inv

/-!
# Verification of the condor-forecast-bot normalization / resolution / alerting pipeline

This file is a shallow embedding, in Lean 4, of the decision logic of the
condor-forecast-bot repository (`src/scrape.js`, `src/unnamed/part_000`,
`src/unnamed/part_001`).  JavaScript numbers are modelled as `JSNum`
(NaN / ±Infinity / an exact rational); machine floats' rounding and overflow
are not modelled — parsed decimal literals are kept exact.  Strings are Lean
`String`s, and the handful of JS string/array operations the scripts use
(`split`, `trim`, `indexOf`, `||` on strings, out-of-range index access) are
reproduced as executable functions.  `Date.UTC` and the ISO-timestamp parsing
done through `new Date(...)` are modelled with the standard civil-calendar
day-count arithmetic (days since 1970-01-01), including ECMAScript's
truncation of the components and the ±8.64e15 ms time clip.
-/

instance exceptDecEq {ε α : Type} [DecidableEq ε] [DecidableEq α] :
    DecidableEq (Except ε α)
  | .error e1, .error e2 =>
    match decEq e1 e2 with
    | isTrue h => isTrue (by rw [h])
    | isFalse h => isFalse (fun hc => h (Except.error.inj hc))
  | .ok a1, .ok a2 =>
    match decEq a1 a2 with
    | isTrue h => isTrue (by rw [h])
    | isFalse h => isFalse (fun hc => h (Except.ok.inj hc))
  | .error _, .ok _ => isFalse (fun hc => Except.noConfusion hc)
  | .ok _, .error _ => isFalse (fun hc => Except.noConfusion hc)

/-- JavaScript number: NaN, +Infinity, -Infinity, or a finite value
(modelled as an exact rational; double rounding and overflow are not
modelled). -/
inductive JSNum where
  | nan : JSNum
  | inf : JSNum
  | ninf : JSNum
  | num : ℚ → JSNum
deriving DecidableEq, Repr

/-- Model of `Number.isNaN`. -/
def jsIsNaN : JSNum → Bool
  | .nan => true
  | _ => false

/-- Finiteness of a JS number (`isFinite`). -/
def jsIsFinite : JSNum → Bool
  | .num _ => true
  | _ => false

/-- Truncation toward zero, as ECMAScript's `ToIntegerOrInfinity` does on a
finite value. -/
def ratTrunc (q : ℚ) : ℤ :=
  if 0 ≤ q then ⌊q⌋ else ⌈q⌉

/-- JS binary `-` on numbers, restricted to the cases the scripts exercise
(finite - finite; anything involving NaN is NaN; infinities propagate). -/
def jsSub : JSNum → JSNum → JSNum
  | .num a, .num b => .num (a - b)
  | .inf, .num _ => .inf
  | .ninf, .num _ => .ninf
  | .num _, .inf => .ninf
  | .num _, .ninf => .inf
  | .inf, .ninf => .inf
  | .ninf, .inf => .ninf
  | _, _ => .nan

/-- JS binary `+` on two numbers (the scripts only add finite values and
the 0/1 day offset). -/
def jsAdd : JSNum → JSNum → JSNum
  | .num a, .num b => .num (a + b)
  | .inf, .num _ => .inf
  | .ninf, .num _ => .ninf
  | .num _, .inf => .inf
  | .num _, .ninf => .ninf
  | .inf, .inf => .inf
  | .ninf, .ninf => .ninf
  | _, _ => .nan

/-- JS `%` (remainder, sign of the dividend): `a % b = a - b * trunc(a / b)`.
NaN/infinite operands give NaN, as in ECMAScript. -/
def jsRem : JSNum → JSNum → JSNum
  | .num a, .num b =>
    if b = 0 then .nan else .num (a - b * (ratTrunc (a / b) : ℚ))
  | _, _ => .nan

/-- JS strict equality `x === c` of a number against a finite constant. -/
def jsEqConst (x : JSNum) (c : ℚ) : Bool :=
  match x with
  | .num a => a = c
  | _ => false

/-- JS `>` on numbers: any comparison involving NaN is false. -/
def jsGT : JSNum → JSNum → Bool
  | .num a, .num b => b < a
  | .inf, .num _ => true
  | .num _, .ninf => true
  | .inf, .ninf => true
  | _, _ => false

/-- JS `>=` on numbers: any comparison involving NaN is false. -/
def jsGE : JSNum → JSNum → Bool
  | .num a, .num b => b ≤ a
  | .inf, .num _ => true
  | .num _, .ninf => true
  | .inf, .ninf => true
  | .inf, .inf => true
  | .ninf, .ninf => true
  | _, _ => false

/-- ECMAScript `StrWhiteSpaceChar` (the characters `String.prototype.trim`
and `ToNumber` skip): ASCII whitespace, NBSP, BOM, and the line/paragraph
separators. -/
def jsIsWhite (c : Char) : Bool :=
  c = ' ' || c = '\t' || c = '\n' || c = '\r' ||
  c.toNat = 0xb || c.toNat = 0xc || c.toNat = 0xa0 ||
  c.toNat = 0xfeff || c.toNat = 0x2028 || c.toNat = 0x2029

/-- Drop leading and trailing JS whitespace from a character list. -/
def trimChars (l : List Char) : List Char :=
  ((l.dropWhile jsIsWhite).reverse.dropWhile jsIsWhite).reverse

/-- Model of `String.prototype.trim`. -/
def jsStrTrim (s : String) : String :=
  ⟨trimChars s.data⟩

/-- Lower-casing used by `.toLowerCase()` (ASCII, which is all the headers
and alias tables use). -/
def lowerStr (s : String) : String :=
  ⟨s.data.map Char.toLower⟩

/-- Helper for `String.prototype.split` with a single-character separator. -/
def splitOnCharAux (c : Char) : List Char → List Char → List (List Char)
  | [], acc => [acc.reverse]
  | x :: xs, acc =>
    if x = c then acc.reverse :: splitOnCharAux c xs []
    else splitOnCharAux c xs (x :: acc)

/-- Model of `s.split(c)` for a one-character separator: `"".split(",")`
gives `[""]`, and separators at the ends produce empty fields, as in JS. -/
def splitOnChar (c : Char) (s : String) : List String :=
  (splitOnCharAux c s.data []).map String.mk

/-- Helper for splitting on the regex `/\r?\n/`: split at each `'\n'`,
dropping one `'\r'` immediately before it (the accumulator holds the current
piece reversed, so that `'\r'` is its head). -/
def splitLinesAux : List Char → List Char → List (List Char)
  | [], acc => [acc.reverse]
  | '\n' :: xs, acc =>
    (match acc with
      | '\r' :: a => a.reverse
      | _ => acc.reverse) :: splitLinesAux xs []
  | x :: xs, acc => splitLinesAux xs (x :: acc)

/-- Model of `text.split(/\r?\n/)`. -/
def splitLinesJS (s : String) : List String :=
  (splitLinesAux s.data []).map String.mk

/-- `Array.prototype.indexOf` on strings: 0-based index of the first
occurrence, `-1` if absent. -/
def jsIndexOfAux (x : String) : List String → ℤ → ℤ
  | [], _ => -1
  | y :: ys, i => if y = x then i else jsIndexOfAux x ys (i + 1)

/-- Model of `header.indexOf(name)`. -/
def jsIndexOf (l : List String) (x : String) : ℤ :=
  jsIndexOfAux x l 0

/-- Model of `cols[i]` coerced with `|| ''`: an out-of-range or negative
index (JS `undefined`) behaves as the empty string. -/
def listGetStr (l : List String) (i : ℤ) : String :=
  if 0 ≤ i then l.getD i.toNat "" else ""

/-- JS `a || b` on strings: the empty string is falsy. -/
def jsOrStr (a b : String) : String :=
  if a = "" then b else a

/-- Strip a leading byte-order mark, as `text.replace(/^﻿/, '')`. -/
def stripBOM (s : String) : String :=
  match s.data with
  | c :: r => if c.toNat = 0xfeff then ⟨r⟩ else s
  | [] => s

/-- Strip one leading and one trailing double quote, as
`s.replace(/^"|"$/g, '')`. -/
def stripQuotes (s : String) : String :=
  let l1 := match s.data with
    | '"' :: r => r
    | l => l
  let l2 := match l1.reverse with
    | '"' :: r => r.reverse
    | _ => l1
  ⟨l2⟩

/-- Accumulating digit scanner: `takeDigitsAux cs v n` extends the already
read value `v` (with `n` digits read so far). -/
def takeDigitsAux : List Char → ℕ → ℕ → ℕ × ℕ × List Char
  | [], v, n => (v, n, [])
  | c :: cs, v, n =>
    if c.isDigit then takeDigitsAux cs (v * 10 + (c.toNat - 48)) (n + 1)
    else (v, n, c :: cs)

/-- Integer power of ten as a rational, for decimal/exponent scaling. -/
def pow10Z (e : ℤ) : ℚ :=
  if 0 ≤ e then ((10 : ℚ) ^ e.toNat) else 1 / (10 : ℚ) ^ (-e).toNat

/-- Core of `Number(string)` after whitespace trimming: optional sign, then
`Infinity` or a decimal literal (digits, optional fraction, optional
exponent); anything else is NaN.  Hex/octal/binary literals are not used by
the data this pipeline reads and are modelled as NaN. -/
def jsNumberCore (cs0 : List Char) : JSNum :=
  match cs0 with
  | [] => .num 0
  | _ =>
    let sign : Bool × List Char :=
      match cs0 with
      | '-' :: r => (true, r)
      | '+' :: r => (false, r)
      | r => (false, r)
    let neg := sign.1
    let cs1 := sign.2
    if cs1 = ['I', 'n', 'f', 'i', 'n', 'i', 't', 'y'] then
      if neg then .ninf else .inf
    else
      let ipart := takeDigitsAux cs1 0 0
      let iv := ipart.1
      let ic := ipart.2.1
      let r1 := ipart.2.2
      let fpart : ℕ × ℕ × List Char :=
        match r1 with
        | '.' :: r => takeDigitsAux r 0 0
        | _ => (0, 0, r1)
      let fv := fpart.1
      let fc := fpart.2.1
      let r2 := match r1 with
        | '.' :: _ => fpart.2.2
        | _ => r1
      let epart : Bool × ℤ × List Char :=
        match r2 with
        | 'e' :: r | 'E' :: r =>
          let esign : Bool × List Char :=
            match r with
            | '-' :: r2 => (true, r2)
            | '+' :: r2 => (false, r2)
            | r2 => (false, r2)
          let ed := takeDigitsAux esign.2 0 0
          (0 < ed.2.1, if esign.1 then -(ed.1 : ℤ) else (ed.1 : ℤ), ed.2.2)
        | _ => (true, 0, r2)
      if 0 < ic + fc ∧ epart.1 ∧ epart.2.2 = [] then
        let base : ℚ := (iv : ℚ) + (fv : ℚ) / (10 : ℚ) ^ fc
        let v := base * pow10Z epart.2.1
        .num (if neg then -v else v)
      else .nan

/-- Model of JS `Number(string)`: trim ECMAScript whitespace, then parse;
the empty (trimmed) string is `0`. -/
def jsNumber (s : String) : JSNum :=
  jsNumberCore (trimChars s.data)

/-- Days from 1970-01-01 of the civil date `(y, m, d)` with `m` in `1..12`
(Howard Hinnant's `days_from_civil`, on unbounded integers). -/
def daysFromCivil (y m d : ℤ) : ℤ :=
  let y2 := if m ≤ 2 then y - 1 else y
  let era := y2.fdiv 400
  let yoe := y2 - era * 400
  let mp := if 2 < m then m - 3 else m + 9
  let doy := (153 * mp + 2).fdiv 5 + d - 1
  let doe := yoe * 365 + yoe.fdiv 4 - yoe.fdiv 100 + doy
  era * 146097 + doe - 719468

/-- ECMAScript `MakeDay(y, m, d)` with `m` 0-based and arbitrary (month
overflow rolls the year), on already-truncated integers. -/
def jsMakeDay (y m d : ℤ) : ℤ :=
  let ym := y + m.fdiv 12
  let mn := m.emod 12
  daysFromCivil ym (mn + 1) 1 + (d - 1)

/-- ECMAScript time-range limit: `|t| ≤ 8.64e15` ms (`TimeClip`). -/
def msLimit : ℤ := 8640000000000000

/-- ECMAScript `MakeFullYear` on the already-truncated year argument:
`Date.UTC` (and the `Date` constructor) map year arguments `0..99` to
`1900 + year`; all other years pass through unchanged. -/
def makeFullYear (y : ℤ) : ℤ :=
  if 0 ≤ y ∧ y ≤ 99 then 1900 + y else y

/-- Model of `Date.UTC(y, m, d, h, 0, 0)`: NaN unless all components are
finite; components are truncated toward zero (`MakeDay` / `MakeTime`), the
year goes through `MakeFullYear` (so `0..99` become `1900..1999`), the
day count is built with month-overflow normalization, and the final time
value is clipped to the representable range. -/
def dateUTCms (y m d h : JSNum) : JSNum :=
  match y, m, d, h with
  | .num qy, .num qm, .num qd, .num qh =>
    let day := jsMakeDay (makeFullYear (ratTrunc qy)) (ratTrunc qm) (ratTrunc qd)
    let t := day * 86400000 + ratTrunc qh * 3600000
    if t ≤ msLimit ∧ -msLimit ≤ t then .num (t : ℚ) else .nan
  | _, _, _, _ => .nan

/-- Output row of the parsers that project to instants, the model of
`{ ts_utc, price }` pushed by `parseCSV_amil_wvpa` / `parseExcelFlexible`
(`src/scrape.js`).  The ISO string `ts_utc` is represented by its time
value in milliseconds since the epoch, `ts`; for strings of this fixed
ISO shape their `localeCompare` order coincides with the order of the
time values. -/
structure OutRow where
  ts : ℤ
  price : JSNum
deriving DecidableEq, Repr

/-- Failure modes of the embedded parsers.  `schema` is the thrown
`CSV schema not recognized. Headers: ...` error carrying the header
columns found; `headerUndefined` models the TypeError raised by
`lines[0].split` when the line list is empty; `rangeError` models
`new Date(NaN).toISOString()` throwing; `excelSchema` is
`Excel schema not recognized.`; `csvEmpty` is the `CSV empty` error of
the `part_001` variant; `headerMissing` is that variant's
`CSV header missing required columns. Got: ...`; `missingColumns` is
`part_000`'s `CSV missing columns (need date, he, forecast). Got: ...`;
`noRows` and `noTimestamps` are the row-resolver failures. -/
inductive PErr where
  | schema : List String → PErr
  | headerUndefined : PErr
  | rangeError : PErr
  | excelSchema : PErr
  | csvEmpty : PErr
  | headerMissing : List String → PErr
  | missingColumns : List String → PErr
  | noRows : PErr
  | noTimestamps : PErr
deriving DecidableEq, Repr

/-- Hour-ending projection of `parseCSV_amil_wvpa` (`src/scrape.js`
lines 58-62): `hrEnd = he % 24`, `addDays = he === 24 ? 1 : 0`,
`Date.UTC(Y, M-1, D + addDays, hrEnd, 0, 0)`. -/
def projectRow (y m d he : JSNum) : JSNum :=
  let hrEnd := jsRem he (.num 24)
  let addDays : JSNum := if jsEqConst he 24 then .num 1 else .num 0
  dateUTCms y (jsSub m (.num 1)) (jsAdd d addDays) hrEnd

/-- One iteration of the row loop of `parseCSV_amil_wvpa` (`src/scrape.js`
lines 49-63): split on commas, skip short/blank/non-numeric rows, project
the hour-ending instant; `toISOString` on an invalid date throws, which
surfaces as `rangeError`. -/
def parseDataRow (idxDate idxHe idxForecast idxValue : ℤ) (line : String) :
    Except PErr (Option OutRow) :=
  let cols := splitOnChar ',' line
  if cols.length < 3 then .ok none
  else
    let dstr := jsStrTrim (listGetStr cols idxDate)
    let heStr := jsStrTrim (listGetStr cols idxHe)
    let priceStr := jsStrTrim (jsOrStr (listGetStr cols idxForecast) (listGetStr cols idxValue))
    if dstr = "" ∨ heStr = "" ∨ priceStr = "" then .ok none
    else
      let he := jsNumber heStr
      let price := jsNumber priceStr
      if jsIsNaN he ∨ jsIsNaN price then .ok none
      else
        let parts := (splitOnChar '-' dstr).map jsNumber
        let y := parts.getD 0 .nan
        let m := parts.getD 1 .nan
        let d := parts.getD 2 .nan
        match projectRow y m d he with
        | .num t => .ok (some ⟨ratTrunc t, price⟩)
        | _ => .error .rangeError

/-- The data-row loop of `parseCSV_amil_wvpa` over `lines[1..]`, stopping
with the first thrown error. -/
def csvRowsLoop (idxDate idxHe idxForecast idxValue : ℤ) :
    List String → Except PErr (List OutRow)
  | [] => .ok []
  | line :: rest =>
    match parseDataRow idxDate idxHe idxForecast idxValue line with
    | .error e => .error e
    | .ok none => csvRowsLoop idxDate idxHe idxForecast idxValue rest
    | .ok (some r) =>
      match csvRowsLoop idxDate idxHe idxForecast idxValue rest with
      | .error e => .error e
      | .ok rs => .ok (r :: rs)

/-- Comparator key of `out.sort((a,b) => a.ts_utc.localeCompare(b.ts_utc))`:
ascending time value. -/
def rowLe (a b : OutRow) : Prop :=
  a.ts ≤ b.ts

instance : DecidableRel rowLe := fun a b => Int.decLe a.ts b.ts

instance : IsTotal OutRow rowLe := ⟨fun a b => Int.le_total a.ts b.ts⟩

instance : IsTrans OutRow rowLe := ⟨fun _ _ _ h h2 => le_trans h h2⟩

/-- The stable ascending sort applied at `src/scrape.js` line 65
(`Array.prototype.sort` is stable, so it is extensionally insertion
sort by the comparator). -/
def sortRows (l : List OutRow) : List OutRow :=
  List.insertionSort rowLe l

/-- The unsorted row list produced by `parseCSV_amil_wvpa` before its final
`out.sort(...)`: header lookup, schema check, then the row loop. -/
def csvRowsUnsorted (raw : String) : Except PErr (List OutRow) :=
  let lines := (splitLinesJS raw).filter (fun l => !(jsStrTrim l).data.isEmpty)
  match lines with
  | [] => .error .headerUndefined
  | l0 :: rest =>
    let header := (splitOnChar ',' l0).map (fun s => lowerStr (jsStrTrim s))
    let idxDate := jsIndexOf header "date"
    let idxHe := jsIndexOf header "he"
    let idxForecast := jsIndexOf header "forecast"
    let idxValue := jsIndexOf header "value"
    if idxDate = -1 ∨ idxHe = -1 ∨ (idxForecast = -1 ∧ idxValue = -1) then
      .error (.schema header)
    else
      csvRowsLoop idxDate idxHe idxForecast idxValue rest

/-- Model of `parseCSV_amil_wvpa(filePath)` (`src/scrape.js` lines 40-67)
applied to the file's text: returns the `{ ts_utc, price }` rows sorted
ascending by `ts_utc`. -/
def parseCSV_amil_wvpa (raw : String) : Except PErr (List OutRow) :=
  match csvRowsUnsorted raw with
  | .error e => .error e
  | .ok l => .ok (sortRows l)

/-- Leap-year test of the proleptic Gregorian calendar. -/
def isLeap (y : ℤ) : Bool :=
  (y.emod 4 = 0 && y.emod 100 ≠ 0) || y.emod 400 = 0

/-- Number of days of month `m` (1..12) of year `y`. -/
def daysInMonth (y m : ℤ) : ℤ :=
  if m = 2 then (if isLeap y then 29 else 28)
  else if m = 4 ∨ m = 6 ∨ m = 9 ∨ m = 11 then 30
  else 31

/-- Time value (ms) of the UTC instant `y-m-d H:M:S` for a valid civil
date; `H = 24` rolls into the next day as the ES date-string grammar
allows. -/
def utcMsOf (y m d H M S : ℤ) : ℤ :=
  (daysFromCivil y m d * 24 + H) * 3600000 + M * 60000 + S * 1000

/-- Validity of date-time components per the ECMAScript Date Time String
Format (`new Date("yyyy-mm-ddTHH:MM:SSZ")` yields NaN outside these
ranges; `24:00:00` is the one legal hour-24 form). -/
def isoValid (y m d H M S : ℕ) : Bool :=
  1 ≤ m && m ≤ 12 && 1 ≤ d && (d : ℤ) ≤ daysInMonth y m &&
  ((H ≤ 23 && M ≤ 59 && S ≤ 59) || (H = 24 && M = 0 && S = 0))

/-- Epoch value of `new Date(`yyyy-mm-ddTHH:MM:SSZ`).getTime()` built from
the numeric components: NaN when the components are invalid. -/
def toEpochJS (y m d H M S : ℕ) : JSNum :=
  if isoValid y m d H M S then .num ((utcMsOf y m d H M S : ℤ) : ℚ) else .nan

/-- Decimal digit character of `n % 10`. -/
def digitChar (n : ℕ) : Char :=
  match n % 10 with
  | 0 => '0'
  | 1 => '1'
  | 2 => '2'
  | 3 => '3'
  | 4 => '4'
  | 5 => '5'
  | 6 => '6'
  | 7 => '7'
  | 8 => '8'
  | _ => '9'

/-- Fuel-driven decimal rendering of a natural number (most significant
digit first); the fuel `n + 1` always suffices. -/
def natToDecAux : ℕ → ℕ → List Char → List Char
  | 0, _, acc => acc
  | fuel + 1, n, acc =>
    if n < 10 then digitChar n :: acc
    else natToDecAux fuel (n / 10) (digitChar (n % 10) :: acc)

/-- Decimal rendering of a natural number, as JS `String(n)` prints it. -/
def natToDec (n : ℕ) : String :=
  ⟨natToDecAux (n + 1) n []⟩

/-- Decimal rendering of an integer. -/
def intToDec (z : ℤ) : String :=
  if z < 0 then "-" ++ natToDec z.natAbs else natToDec z.natAbs

/-- Extract the multiplicity of a prime `p` in `n` (fuel-driven):
returns (multiplicity, remaining cofactor). -/
def factorOutAux (p : ℕ) : ℕ → ℕ → ℕ × ℕ
  | 0, n => (0, n)
  | fuel + 1, n =>
    if n % p = 0 ∧ n ≠ 0 then
      let r := factorOutAux p fuel (n / p)
      (r.1 + 1, r.2)
    else (0, n)

/-- Drop trailing `'0'` characters. -/
def trimTrailingZeros (l : List Char) : List Char :=
  (l.reverse.dropWhile (fun c => c = '0')).reverse

/-- Left-pad a string with `'0'` to length `k`. -/
def padZerosTo (k : ℕ) (s : String) : String :=
  if s.data.length < k then ⟨List.replicate (k - s.data.length) '0' ++ s.data⟩ else s

/-- Rendering of a rational as JS `String(number)` prints the values this
pipeline meets: integers print without a point, and a fraction whose
denominator divides a power of ten prints as its exact terminating
decimal with trailing zeros trimmed (which is what JS's
shortest-round-trip printing produces for short decimal literals).  A
denominator with another prime factor cannot arise from a parsed decimal
literal; it is rendered as `num/den` to keep the function total. -/
def ratToDec (q : ℚ) : String :=
  let sgn := if q.num < 0 then "-" else ""
  let f2 := factorOutAux 2 q.den q.den
  let f5 := factorOutAux 5 f2.2 f2.2
  if f5.2 = 1 then
    let k := max f2.1 f5.1
    let scale := (10 ^ k) / q.den
    let nAbs := q.num.natAbs * scale
    if k = 0 then sgn ++ natToDec nAbs
    else
      let frac := trimTrailingZeros (padZerosTo k (natToDec (nAbs % 10 ^ k))).data
      if frac.isEmpty then sgn ++ natToDec (nAbs / 10 ^ k)
      else sgn ++ natToDec (nAbs / 10 ^ k) ++ "." ++ ⟨frac⟩
  else sgn ++ natToDec q.num.natAbs ++ "/" ++ natToDec q.den

/-- JS `String(number)` / template-literal rendering of a number. -/
def numToString : JSNum → String
  | .nan => "NaN"
  | .inf => "Infinity"
  | .ninf => "-Infinity"
  | .num q => ratToDec q

/-- JS `String(x).padStart(2, "0")`. -/
def padStart2 (s : String) : String :=
  if s.data.length < 2 then ⟨List.replicate (2 - s.data.length) '0' ++ s.data⟩ else s

/-- JS `x.toFixed(2)`: round to the closest hundredth, the larger value on
ties, always printing two decimals. -/
def toFixed2 : JSNum → String
  | .nan => "NaN"
  | .inf => "Infinity"
  | .ninf => "-Infinity"
  | .num q =>
    let n : ℤ := ⌊q * 100 + 1 / 2⌋
    (if n < 0 then "-" else "") ++ natToDec (n.natAbs / 100) ++ "." ++
      padZerosTo 2 (natToDec (n.natAbs % 100))

/-- Map-style grouping used by the `byDate`/`groups` builders: append `x`
to the bucket of key `k`, creating the bucket at the end on first
appearance, preserving insertion order as a JS `Map` does. -/
def groupAppend {α : Type} (m : List (String × List α)) (k : String) (x : α) :
    List (String × List α) :=
  match m with
  | [] => [(k, [x])]
  | (k2, xs) :: rest =>
    if k2 = k then (k2, xs ++ [x]) :: rest else (k2, xs) :: groupAppend rest k x

/-- Build the insertion-ordered grouping of a list by a string key. -/
def groupByKey {α : Type} (key : α → String) (l : List α) :
    List (String × List α) :=
  l.foldl (fun m x => groupAppend m (key x) x) []

/-- Row record of `parseCsvText` / `parseCsv` (`src/scrape.js` lines
347-351, `src/unnamed/part_001` line 138): `{ date, he, forecast }` with
the numbers via `Number(...)`. -/
structure Rec8 where
  date : String
  he : JSNum
  forecast : JSNum
deriving DecidableEq, Repr

/-- Result of `parseCsv` (`src/unnamed/part_001` lines 123-141). -/
structure ParsedP1 where
  header : List String
  rows : List Rec8
deriving DecidableEq, Repr

/-- Clean a raw field as `s.trim().replace(/^"|"$/g, "")` does. -/
def cleanField (s : String) : String :=
  stripQuotes (jsStrTrim s)

/-- Model of `parseCsv(csvText)` of `src/unnamed/part_001` (lines
123-141; `parseCsvText` of `src/scrape.js` lines 330-354 is the same
function renamed): lines are filtered with `Boolean` (only fully empty
lines drop), an empty line list throws `CSV empty`, the header requires
`date`, `he` and `forecast` case-sensitively, and at most `maxRows` data
rows are kept, skipping rows with fewer columns than the header. -/
def parseCsvP1 (maxRows : ℕ) (raw : String) : Except PErr ParsedP1 :=
  let lines := (splitLinesJS raw).filter (fun l => l ≠ "")
  match lines with
  | [] => .error .csvEmpty
  | l0 :: rest =>
    let header := (splitOnChar ',' l0).map cleanField
    let dateIdx := jsIndexOf header "date"
    let heIdx := jsIndexOf header "he"
    let forecastIdx := jsIndexOf header "forecast"
    if dateIdx < 0 ∨ heIdx < 0 ∨ forecastIdx < 0 then
      .error (.headerMissing header)
    else
      let rows := (rest.take maxRows).filterMap (fun line =>
        let cols := (splitOnChar ',' line).map cleanField
        if cols.length < header.length then none
        else some ⟨listGetStr cols dateIdx,
                   jsNumber (listGetStr cols heIdx),
                   jsNumber (listGetStr cols forecastIdx)⟩)
      .ok ⟨header, rows⟩

/-- Quote-aware field splitter `splitCsvLine` (`src/unnamed/part_000`
lines 46-59): a doubled quote inside a quoted field is an escaped quote,
quotes toggle the in-quotes flag, and commas split only outside quotes. -/
def splitCsvLineAux : List Char → List Char → Bool → List (List Char)
  | [], cur, _ => [cur.reverse]
  | '"' :: '"' :: r2, cur, true => splitCsvLineAux r2 ('"' :: cur) true
  | '"' :: rest, cur, q => splitCsvLineAux rest cur (!q)
  | ',' :: rest, cur, false => cur.reverse :: splitCsvLineAux rest [] false
  | x :: rest, cur, q => splitCsvLineAux rest (x :: cur) q

/-- Model of `splitCsvLine(line)`. -/
def splitCsvLine (s : String) : List String :=
  (splitCsvLineAux s.data [] false).map String.mk

/-- Row record of `parseCsvFirst48` (`src/unnamed/part_000` line 89):
`{ date, he, hh, forecast, alert }`. -/
structure Rec48 where
  date : String
  he : JSNum
  hh : String
  forecast : JSNum
  alert : Bool
deriving DecidableEq, Repr

/-- Result of `parseCsvFirst48` (`src/unnamed/part_000` line 95). -/
structure Analysis48 where
  header : List String
  groups : List (String × List Rec48)
  list : List Rec48
  flaggedCount : ℕ
deriving DecidableEq, Repr

/-- One accepted data row of `parseCsvFirst48` (`src/unnamed/part_000`
lines 79-92): `none` when the row is skipped (blank date or non-numeric
hour/price). -/
def first48Row (iDate iHe iFc : ℤ) (threshold : JSNum) (line : String) :
    Option Rec48 :=
  let cols := splitCsvLine line
  let date := jsStrTrim (listGetStr cols iDate)
  let he := jsNumber (jsStrTrim (listGetStr cols iHe))
  let fc := jsNumber (jsStrTrim (listGetStr cols iFc))
  if date = "" ∨ jsIsNaN he ∨ jsIsNaN fc then none
  else
    let hh := padStart2 (numToString he) ++ ":00"
    some ⟨date, he, hh, fc, jsGE fc threshold⟩

/-- Model of `parseCsvFirst48(csvText, limit)` (`src/unnamed/part_000`
lines 61-96) with the `PRICE_THRESHOLD` environment constant made an
explicit parameter: strip a BOM, keep lines with non-blank trim, return
an empty analysis when fewer than two lines remain, locate `date` / `he`
/ `forecast` case-sensitively (throwing `CSV missing columns ...` with
the header found), then fold the first `limit` data rows into the list,
the per-date groups, and the count of rows at or above the threshold. -/
def parseCsvFirst48 (limit : ℕ) (threshold : JSNum) (csvText : String) :
    Except PErr Analysis48 :=
  let lines := (splitLinesJS (stripBOM csvText)).filter
    (fun l => !(jsStrTrim l).data.isEmpty)
  match lines with
  | [] => .ok ⟨[], [], [], 0⟩
  | [_] => .ok ⟨[], [], [], 0⟩
  | l0 :: rest =>
    let header := (splitCsvLine l0).map jsStrTrim
    let iDate := jsIndexOf header "date"
    let iHe := jsIndexOf header "he"
    let iFc := jsIndexOf header "forecast"
    if iDate < 0 ∨ iHe < 0 ∨ iFc < 0 then
      .error (.missingColumns header)
    else
      let recs := (rest.take limit).filterMap (first48Row iDate iHe iFc threshold)
      .ok ⟨header,
           groupByKey Rec48.date recs,
           recs,
           (recs.filter Rec48.alert).length⟩

/-- Result of `buildMessage` (`src/unnamed/part_001` line 170):
`{ text, hits24Count, topList }`. -/
structure Msg where
  text : String
  hits24Count : ℕ
  topList : String
deriving DecidableEq, Repr

/-- The above-threshold subset of the first 24 rows (`src/unnamed/part_001`
lines 144-145): `parsed.rows.slice(0, 24).filter(r => r.forecast >
threshold)`. -/
def hits24Of (rows : List Rec8) (threshold : JSNum) : List Rec8 :=
  (rows.take 24).filter (fun r => jsGT r.forecast threshold)

/-- One entry of the flat above-threshold list (`src/unnamed/part_001`
line 146): `HH:00 → price.toFixed(2)`. -/
def hitLine (r : Rec8) : String :=
  padStart2 (numToString r.he) ++ ":00 → " ++ toFixed2 r.forecast

/-- The flat `HH:00 → price` list over the above-threshold first-24 rows. -/
def hitsListStrings (rows : List Rec8) (threshold : JSNum) : List String :=
  (hits24Of rows threshold).map hitLine

/-- One rendered per-row report line (`src/unnamed/part_001` lines
160-161): `- HH:00: price` with the warning marker appended exactly when
`r.forecast > threshold`. -/
def rowLine (threshold : JSNum) (r : Rec8) : String :=
  "- " ++ padStart2 (numToString r.he) ++ ":00: " ++ numToString r.forecast ++
    (if jsGT r.forecast threshold then " ⚠️" else "")

/-- The lines of one date group of the report: `date D;`, the rows, and a
blank separator line. -/
def dateSection (threshold : JSNum) (g : String × List Rec8) : List String :=
  ("date " ++ g.1 ++ ";") :: g.2.map (rowLine threshold) ++ [""]

/-- Exactly the per-row `- HH:00: ...` lines of the rendered report, in
report order. -/
def rowLinesOf (rows : List Rec8) (threshold : JSNum) : List String :=
  ((groupByKey Rec8.date rows).map (fun g => g.2.map (rowLine threshold))).flatten

/-- All lines of the rendered report, in order (`src/unnamed/part_001`
lines 154-164). -/
def msgLines (fileName : String) (rows : List Rec8) (threshold : JSNum) :
    List String :=
  ("file: " ++ fileName) ::
  (natToDec (hits24Of rows threshold).length ++
    " hours require curtailment on the forecasted prices (first 24).") ::
  ((groupByKey Rec8.date rows).map (dateSection threshold)).flatten

/-- Model of `buildMessage(fileName, parsed, threshold)`
(`src/unnamed/part_001` lines 143-171; the `src/scrape.js` variant at
lines 356-386 is the same function with the threshold read from the
environment): the joined report text, the count of above-threshold rows
among the first 24, and the flat `Above threshold in first 24:` list. -/
def buildMessage (fileName : String) (rows : List Rec8) (threshold : JSNum) :
    Msg :=
  let hl := hitsListStrings rows threshold
  { text := "\n".intercalate (msgLines fileName rows threshold)
    hits24Count := (hits24Of rows threshold).length
    topList :=
      if hl.isEmpty then "Above threshold in first 24: none"
      else "Above threshold in first 24: " ++ ", ".intercalate hl }

/-- A report line carries the visual alert marker iff it contains the
warning-sign character. -/
def containsMarker (s : String) : Bool :=
  s.data.contains '⚠'

/-- Match exactly two decimal digits (`\d{2}`) at the current position. -/
def d2At : List Char → Option (ℕ × List Char)
  | c1 :: c2 :: rest =>
    if c1.isDigit ∧ c2.isDigit then
      some ((c1.toNat - 48) * 10 + (c2.toNat - 48), rest)
    else none
  | _ => none

/-- Match exactly four decimal digits (`\d{4}`) at the current position. -/
def d4At : List Char → Option (ℕ × List Char)
  | c1 :: c2 :: c3 :: c4 :: rest =>
    if c1.isDigit ∧ c2.isDigit ∧ c3.isDigit ∧ c4.isDigit then
      some ((c1.toNat - 48) * 1000 + (c2.toNat - 48) * 100 +
            (c3.toNat - 48) * 10 + (c4.toNat - 48), rest)
    else none
  | _ => none

/-- Match one given character at the current position. -/
def chAt (c : Char) : List Char → Option (List Char)
  | x :: rest => if x = c then some rest else none
  | [] => none

/-- Match one-or-more whitespace (`\s+`), greedily; since no digit is
whitespace, greedy matching here never needs backtracking. -/
def wsPlus : List Char → Option (List Char)
  | c :: rest => if jsIsWhite c then some (rest.dropWhile jsIsWhite) else none
  | [] => none

/-- Match `\d{2}sep\d{2}sep\d{4}\s+\d{2}:\d{2}:\d{2}` at the current
position, returning the six digit groups in textual order. -/
def matchTS2At (sep : Char) (l : List Char) :
    Option (ℕ × ℕ × ℕ × ℕ × ℕ × ℕ) := do
  let (a, r1) ← d2At l
  let r2 ← chAt sep r1
  let (b, r3) ← d2At r2
  let r4 ← chAt sep r3
  let (y, r5) ← d4At r4
  let r6 ← wsPlus r5
  let (h, r7) ← d2At r6
  let r8 ← chAt ':' r7
  let (mi, r9) ← d2At r8
  let r10 ← chAt ':' r9
  let (s, _) ← d2At r10
  pure (a, b, y, h, mi, s)

/-- Match `\d{4}-\d{2}-\d{2}\s+\d{2}:\d{2}:\d{2}` at the current
position. -/
def matchTSYAt (l : List Char) : Option (ℕ × ℕ × ℕ × ℕ × ℕ × ℕ) := do
  let (y, r1) ← d4At l
  let r2 ← chAt '-' r1
  let (m, r3) ← d2At r2
  let r4 ← chAt '-' r3
  let (d, r5) ← d2At r4
  let r6 ← wsPlus r5
  let (h, r7) ← d2At r6
  let r8 ← chAt ':' r7
  let (mi, r9) ← d2At r8
  let r10 ← chAt ':' r9
  let (s, _) ← d2At r10
  pure (y, m, d, h, mi, s)

/-- Leftmost regex search: try the matcher at each position from the
start, as `String.prototype.match` does for these anchored-free
patterns. -/
def searchAux {β : Type} (f : List Char → Option β) : List Char → Option β
  | [] => none
  | c :: rest =>
    match f (c :: rest) with
    | some b => some b
    | none => searchAux f rest

/-- Model of `parseAnyTimestamp(text)` (`src/scrape.js` lines 235-261 /
`src/unnamed/part_001` lines 38-55): try the DMY, then YMD, then MDY
pattern over the whole text; on a match, build the epoch of
`yyyy-mm-ddTHH:MM:SSZ` (NaN when those components are not a valid
date-time); `none` models the `null` of no pattern matching. -/
def parseAnyTimestamp (text : String) : Option JSNum :=
  match searchAux (matchTS2At '-') text.data with
  | some (dd, mm, yyyy, H, M, S) => some (toEpochJS yyyy mm dd H M S)
  | none =>
    match searchAux matchTSYAt text.data with
    | some (yyyy, mm, dd, H, M, S) => some (toEpochJS yyyy mm dd H M S)
    | none =>
      match searchAux (matchTS2At '/') text.data with
      | some (mm, dd, yyyy, H, M, S) => some (toEpochJS yyyy mm dd H M S)
      | none => none

/-- Resolver outcome of `findTargetRowIndex` (`src/scrape.js`) /
`pickRowIndex` (`src/unnamed/part_001`): the chosen 0-based row index,
the row count, and which strategy picked it. -/
structure Pick where
  index : ℕ
  count : ℕ
  pickedBy : String
deriving DecidableEq, Repr

/-- The best-timestamp scan (`src/scrape.js` lines 304-313): running
`(bestIdx, bestEpoch)` accumulator starting at `(-1, -1)`, updated only
when a row's parsed epoch is strictly greater than the best so far
(`epoch != null && epoch > bestEpoch`; a NaN epoch compares false). -/
def pickLoopAux : List String → ℕ → ℤ → ℚ → ℤ × ℚ
  | [], _, bi, be => (bi, be)
  | t :: ts, i, bi, be =>
    match parseAnyTimestamp t with
    | some (.num q) =>
      if be < q then pickLoopAux ts (i + 1) (i : ℤ) q
      else pickLoopAux ts (i + 1) bi be
    | _ => pickLoopAux ts (i + 1) bi be

/-- Model of `findTargetRowIndex(page)` (`src/scrape.js` lines 275-326)
over the listing rows' inner texts (`pickRowIndex` of
`src/unnamed/part_001` lines 57-82 is the same selection logic): no rows
is an error; `FORCE_LAST_ROW` picks the last row; otherwise the row with
the strictly greatest parsed timestamp wins, and if no timestamp parses
the last row is picked with a `fallback-last` tag and a warning. -/
def findTargetRowIndex (forceLast : Bool) (texts : List String) :
    Except PErr Pick :=
  let count := texts.length
  if count = 0 then .error .noRows
  else if forceLast then .ok ⟨count - 1, count, "forced-last"⟩
  else
    let r := pickLoopAux texts 0 (-1) (-1)
    if r.1 < 0 then .ok ⟨count - 1, count, "fallback-last"⟩
    else .ok ⟨r.1.toNat, count, "timestamp"⟩

/-- The scan of `findNewestRowIndex` (`src/unnamed/part_000` lines
294-313): each row text is first searched for the DMY pattern; a row
with no match contributes epoch `-1` (`ts[i] ? parsePortalTimestamp(...)
: -1`), and the strict `epoch > bestEpoch` comparison starts from
`-1`. -/
def findNewestLoop : List String → ℕ → ℤ → ℚ → ℤ × ℚ
  | [], _, bi, be => (bi, be)
  | t :: ts, i, bi, be =>
    let epoch : JSNum :=
      match searchAux (matchTS2At '-') t.data with
      | some (dd, mm, yyyy, H, M, S) => toEpochJS yyyy mm dd H M S
      | none => .num (-1)
    match epoch with
    | .num q =>
      if be < q then findNewestLoop ts (i + 1) (i : ℤ) q
      else findNewestLoop ts (i + 1) bi be
    | _ => findNewestLoop ts (i + 1) bi be

/-- Model of `findNewestRowIndex(page)` (`src/unnamed/part_000` lines
286-325) over the rows' inner texts: unlike `findTargetRowIndex`, when no
row yields a parsed timestamp it **throws**
`Could not parse any timestamps on the page.` instead of falling back to
the last row. -/
def findNewestRowIndex (texts : List String) : Except PErr (ℕ × ℕ) :=
  let count := texts.length
  if count = 0 then .error .noRows
  else
    let r := findNewestLoop texts 0 (-1) (-1)
    if r.1 < 0 then .error .noTimestamps
    else .ok (r.1.toNat, count)

/-- Model of the idempotency-key expression of `src/scrape.js` lines
1099-1103, with the cryptographic hash abstracted as `h`: in bypass mode
(`BYPASS_DEDUPE === '1'`) the key hashes
`fileName + '|' + generatedAtUtc + '|' + Math.random()`; otherwise it is
the content hash of the raw CSV text. -/
def idempotencyKey (h : String → String) (bypassDedupe : Bool)
    (csvText fileName generatedAtUtc rand : String) : String :=
  if bypassDedupe then h (fileName ++ "|" ++ generatedAtUtc ++ "|" ++ rand)
  else h csvText

/-- Model of the `idemBase` / `idempotency_key` pair of
`src/unnamed/part_000` lines 209-213: in bypass mode the base is
`fileName|Date.now()|crypto.randomUUID()`, otherwise the content hash of
the CSV text; the key is the hash of the base either way. -/
def idemKeyP0 (h : String → String) (bypassDedupe : Bool)
    (csvText fileName nowStr uuid : String) : String :=
  h (if bypassDedupe then fileName ++ "|" ++ nowStr ++ "|" ++ uuid
     else h csvText)

theorem string_data_inj (a b : String) (h : a.data = b.data) : a = b := by
  cases a
  cases b
  exact congrArg String.mk h

theorem string_data_append (a b : String) : (a ++ b).data = a.data ++ b.data := by
  cases a
  cases b
  rfl

/-- Two `fileName|stamp|random` compositions with equally long stamps and
different (stamp, random) pairs are different strings. -/
theorem pipe_composition_inj (p t1 r1 t2 r2 : String)
    (hlen : t1.data.length = t2.data.length)
    (heq : p ++ "|" ++ t1 ++ "|" ++ r1 = p ++ "|" ++ t2 ++ "|" ++ r2) :
    t1 = t2 ∧ r1 = r2 := by
  have hd : ((p ++ "|" ++ t1 ++ "|").data) ++ r1.data
      = ((p ++ "|" ++ t2 ++ "|").data) ++ r2.data := by
    have := congrArg String.data heq
    simpa [string_data_append, List.append_assoc] using this
  have hlen2 : (p ++ "|" ++ t1 ++ "|").data.length
      = (p ++ "|" ++ t2 ++ "|").data.length := by
    simp [string_data_append, hlen]
  obtain ⟨h1, h2⟩ := List.append_inj hd hlen2
  have h3 : t1.data ++ ['|'] = t2.data ++ ['|'] := by
    have h5 := h1
    simp only [string_data_append, List.append_assoc] at h5
    exact List.append_cancel_left (List.append_cancel_left h5)
  obtain ⟨h4, _⟩ := List.append_inj' h3 rfl
  exact ⟨string_data_inj _ _ h4, string_data_inj _ _ h2⟩

/-- C2 — For every pair of calls to the idempotency key builder on
identical raw bytes, ContentAddressed mode (dedupe-bypass flag unset)
returns the same key string in both calls: the key depends only on the
bytes, not on the per-call time/random values.  BypassUnique mode
(dedupe-bypass flag set) returns two different key strings even for
identical bytes, whenever the two calls' per-call unique values differ
(different random component, with the equally wide timestamp component
possibly also differing) and the hash is collision-free.  This holds for
both the `src/scrape.js` builder and the `src/unnamed/part_000`
builder. -/
theorem idempotency_key_modes (h : String → String)
    (hinj : Function.Injective h) (bytes fn t1 r1 t2 r2 : String)
    (hlen : t1.data.length = t2.data.length) (hne : t1 ≠ t2 ∨ r1 ≠ r2) :
    idempotencyKey h false bytes fn t1 r1 = idempotencyKey h false bytes fn t2 r2 ∧
    idemKeyP0 h false bytes fn t1 r1 = idemKeyP0 h false bytes fn t2 r2 ∧
    idempotencyKey h true bytes fn t1 r1 ≠ idempotencyKey h true bytes fn t2 r2 ∧
    idemKeyP0 h true bytes fn t1 r1 ≠ idemKeyP0 h true bytes fn t2 r2 := by
  refine ⟨rfl, rfl, ?_, ?_⟩
  · intro hk
    have harg := hinj hk
    obtain ⟨ht, hr⟩ := pipe_composition_inj fn t1 r1 t2 r2 hlen harg
    rcases hne with hne | hne
    · exact hne ht
    · exact hne hr
  · intro hk
    have harg := hinj hk
    have harg2 : fn ++ "|" ++ t1 ++ "|" ++ r1 = fn ++ "|" ++ t2 ++ "|" ++ r2 := by
      simpa [idemKeyP0] using harg
    obtain ⟨ht, hr⟩ := pipe_composition_inj fn t1 r1 t2 r2 hlen harg2
    rcases hne with hne | hne
    · exact hne ht
    · exact hne hr

/-- Witness for C2 at concrete inputs: with the identity as a (trivially
collision-free) stand-in for the hash, content-addressed keys agree
across two calls with different per-call values, and bypass keys
differ. -/
theorem idempotency_key_modes_witness :
    idempotencyKey id false "bytes" "f.csv" "0" "a" =
      idempotencyKey id false "bytes" "f.csv" "1" "b" ∧
    idemKeyP0 id false "bytes" "f.csv" "0" "a" =
      idemKeyP0 id false "bytes" "f.csv" "1" "b" ∧
    idempotencyKey id true "bytes" "f.csv" "0" "a" ≠
      idempotencyKey id true "bytes" "f.csv" "1" "b" ∧
    idemKeyP0 id true "bytes" "f.csv" "0" "a" ≠
      idemKeyP0 id true "bytes" "f.csv" "1" "b" :=
  idempotency_key_modes id (fun _ _ hx => hx) "bytes" "f.csv" "0" "a" "1" "b"
    (by decide) (Or.inr (by decide))

/-- C10 — For input byte content with no non-empty line, the delimited
normalizer `parseCSV_amil_wvpa` does not fail with the header-naming
`SchemaError`: the access `lines[0]` hits an empty line list (the
`headerUndefined` out-of-bounds error in this embedding), while the
`parseCsv` variant of `src/unnamed/part_001` raises its distinct
`CSV empty` error when its `Boolean`-filtered line list is empty.  So the
documented SchemaError taxonomy does not cover wholly empty artifacts. -/
theorem empty_input_escapes_schema_error (raw : String)
    (hempty : (splitLinesJS raw).filter (fun l => !(jsStrTrim l).data.isEmpty) = []) :
    parseCSV_amil_wvpa raw = .error .headerUndefined ∧
    (∀ hdr, parseCSV_amil_wvpa raw ≠ .error (.schema hdr)) ∧
    (∀ maxRows, (splitLinesJS raw).filter (fun l => l ≠ "") = [] →
      parseCsvP1 maxRows raw = .error .csvEmpty) := by
  have h1 : parseCSV_amil_wvpa raw = .error .headerUndefined := by
    unfold parseCSV_amil_wvpa csvRowsUnsorted
    rw [hempty]
  refine ⟨h1, ?_, ?_⟩
  · intro hdr hcontra
    rw [h1] at hcontra
    exact PErr.noConfusion (Except.error.inj hcontra)
  · intro maxRows hb
    unfold parseCsvP1
    rw [hb]

/-- Witness for C10 at the empty input. -/
theorem empty_input_escapes_schema_error_witness :
    parseCSV_amil_wvpa "" = .error .headerUndefined ∧
    parseCSV_amil_wvpa "" ≠ .error (.schema ["date"]) ∧
    parseCsvP1 48 "" = .error .csvEmpty := by
  obtain ⟨h1, h2, h3⟩ := empty_input_escapes_schema_error "" (by decide)
  exact ⟨h1, h2 ["date"], h3 48 (by decide)⟩

/-- Counterexample to C4 as stated: both descriptors carry parseable
timestamps (1960 and 1950, in the day-month-year template), the first
parses to the strictly greater instant, yet the resolver does not select
it: pre-1970 epochs are negative, so they never beat the `-1` sentinel
`bestEpoch` starts from, and resolution falls through to the positional
last row. -/
theorem explicit_timestamp_counterexample :
    parseAnyTimestamp "01-01-1960 00:00:00" = some (.num (-315619200000)) ∧
    parseAnyTimestamp "01-01-1950 00:00:00" = some (.num (-631152000000)) ∧
    ((-631152000000 : ℚ) < -315619200000) ∧
    findTargetRowIndex false ["01-01-1960 00:00:00", "01-01-1950 00:00:00"] =
      .ok ⟨1, 2, "fallback-last"⟩ := by
  refine ⟨by decide, by decide,
    by norm_num, by decide⟩

/-- Counterexample to C5 as stated: two descriptors parse to the same
maximal instant, and the resolver selects index 0, not the highest
sequence position 1 — the `epoch > bestEpoch` comparison is strict, so
the first maximum wins, never the last. -/
theorem tie_break_counterexample :
    parseAnyTimestamp "01-01-2025 00:00:00" = some (.num 1735689600000) ∧
    findTargetRowIndex false ["01-01-2025 00:00:00", "01-01-2025 00:00:00"] =
      .ok ⟨0, 2, "timestamp"⟩ ∧
    ((0 : ℕ) ≠ 1) := by
  refine ⟨by decide, by decide, by decide⟩

/-- Counterexample to C6 as stated: on a non-empty descriptor sequence
with no parseable timestamp, the `findNewestRowIndex` resolver of
`src/unnamed/part_000` fails (`Could not parse any timestamps on the
page.`) instead of selecting the last row. -/
theorem positional_fallback_counterexample :
    findNewestRowIndex ["forecast_a.csv"] = .error .noTimestamps := by
  decide

/-- The 25-row input of the C8 counterexample: every row is above the
threshold. -/
def c8rows : List Rec8 :=
  List.replicate 25 ⟨"2025-08-10", .num 1, .num 100⟩

/-- Counterexample to C8 as stated: on 25 rows all above the threshold,
the summary count and the flat list count 24 (they only look at the
first 24 rows), but 25 per-row lines carry the alert marker — the
report marks every rendered row above the threshold, so the three
counts do not round-trip. -/
theorem report_roundtrip_counterexample :
    (buildMessage "f.csv" c8rows (.num 80)).hits24Count = 24 ∧
    (hitsListStrings c8rows (.num 80)).length = 24 ∧
    ((rowLinesOf c8rows (.num 80)).filter containsMarker).length = 25 ∧
    ((24 : ℕ) ≠ 25) := by
  refine ⟨by decide, by decide,
    by decide, by decide⟩

/-- Counterexample to C9 as stated: the row `2025-08-10,25,Infinity` is
emitted by `parseCsvFirst48` — its hour-ending 25 lies outside [1,24]
and its price is infinite (JS `Number("Infinity")` is not NaN, and no
range or finiteness check exists), and it even counts as flagged. -/
theorem normalized_row_invariant_counterexample :
    parseCsvFirst48 48 (.num 80) "date,he,forecast\n2025-08-10,25,Infinity" =
      .ok ⟨["date", "he", "forecast"],
           [("2025-08-10", [⟨"2025-08-10", .num 25, "25:00", .inf, true⟩])],
           [⟨"2025-08-10", .num 25, "25:00", .inf, true⟩], 1⟩ ∧
    ¬ ((1 : ℚ) ≤ 25 ∧ (25 : ℚ) ≤ 24) ∧
    jsIsFinite .inf = false := by
  refine ⟨by decide, by norm_num, by decide⟩

theorem parseDataRow_cases (i1 i2 i3 i4 : ℤ) (line : String) :
    (∃ o, parseDataRow i1 i2 i3 i4 line = .ok o) ∨
    parseDataRow i1 i2 i3 i4 line = .error .rangeError := by
  simp only [parseDataRow]
  repeat' split
  all_goals simp

theorem csvRowsLoop_no_schema (i1 i2 i3 i4 : ℤ) (lines : List String) (hdr : List String) :
    csvRowsLoop i1 i2 i3 i4 lines ≠ .error (.schema hdr) := by
  induction lines with
  | nil =>
    intro h
    injection h
  | cons line rest ih =>
    intro h
    unfold csvRowsLoop at h
    split at h
    · rename_i e he
      injection h with h2
      rw [h2] at he
      rcases parseDataRow_cases i1 i2 i3 i4 line with ⟨o, ho⟩ | ho
      · rw [ho] at he
        injection he
      · rw [ho] at he
        injection he with h3
        exact PErr.noConfusion h3
    · exact ih h
    · split at h
      · rename_i rs e he2
        injection h with h2
        rw [h2] at he2
        exact ih he2
      · injection h

/-- C3 — For every delimited input with a header line (at least one
non-empty line), if the lower-cased header lacks `date`, lacks `he`, or
lacks both `forecast` and `value`, then `parseCSV_amil_wvpa` fails with
the `SchemaError` carrying exactly the header columns found (and, the
error carrying no rows, no partial row output is produced); and if the
header contains all required columns, no `SchemaError` is ever raised
(any remaining failure is the distinct date-range error). -/
theorem schema_error_dichotomy (raw l0 : String) (rest header : List String)
    (hl : (splitLinesJS raw).filter (fun l => !(jsStrTrim l).data.isEmpty) = l0 :: rest)
    (hh : header = (splitOnChar ',' l0).map (fun s => lowerStr (jsStrTrim s))) :
    ((jsIndexOf header "date" = -1 ∨ jsIndexOf header "he" = -1 ∨
        (jsIndexOf header "forecast" = -1 ∧ jsIndexOf header "value" = -1)) →
      parseCSV_amil_wvpa raw = .error (.schema header)) ∧
    (¬(jsIndexOf header "date" = -1 ∨ jsIndexOf header "he" = -1 ∨
        (jsIndexOf header "forecast" = -1 ∧ jsIndexOf header "value" = -1)) →
      ∀ hdr, parseCSV_amil_wvpa raw ≠ .error (.schema hdr)) := by
  subst hh
  have hbody : csvRowsUnsorted raw =
      (if jsIndexOf ((splitOnChar ',' l0).map (fun s => lowerStr (jsStrTrim s))) "date" = -1 ∨
          jsIndexOf ((splitOnChar ',' l0).map (fun s => lowerStr (jsStrTrim s))) "he" = -1 ∨
          (jsIndexOf ((splitOnChar ',' l0).map (fun s => lowerStr (jsStrTrim s))) "forecast" = -1 ∧
            jsIndexOf ((splitOnChar ',' l0).map (fun s => lowerStr (jsStrTrim s))) "value" = -1) then
        .error (.schema ((splitOnChar ',' l0).map (fun s => lowerStr (jsStrTrim s))))
      else
        csvRowsLoop (jsIndexOf ((splitOnChar ',' l0).map (fun s => lowerStr (jsStrTrim s))) "date")
          (jsIndexOf ((splitOnChar ',' l0).map (fun s => lowerStr (jsStrTrim s))) "he")
          (jsIndexOf ((splitOnChar ',' l0).map (fun s => lowerStr (jsStrTrim s))) "forecast")
          (jsIndexOf ((splitOnChar ',' l0).map (fun s => lowerStr (jsStrTrim s))) "value") rest) := by
    unfold csvRowsUnsorted
    rw [hl]
  constructor
  · intro hcond
    unfold parseCSV_amil_wvpa
    rw [hbody, if_pos hcond]
  · intro hcond hdr hcontra
    unfold parseCSV_amil_wvpa at hcontra
    rw [hbody, if_neg hcond] at hcontra
    rcases hloop : csvRowsLoop
        (jsIndexOf ((splitOnChar ',' l0).map (fun s => lowerStr (jsStrTrim s))) "date")
        (jsIndexOf ((splitOnChar ',' l0).map (fun s => lowerStr (jsStrTrim s))) "he")
        (jsIndexOf ((splitOnChar ',' l0).map (fun s => lowerStr (jsStrTrim s))) "forecast")
        (jsIndexOf ((splitOnChar ',' l0).map (fun s => lowerStr (jsStrTrim s))) "value") rest with
      e | l
    · rw [hloop] at hcontra
      simp only [Except.error.injEq] at hcontra
      rw [hcontra] at hloop
      exact csvRowsLoop_no_schema _ _ _ _ rest hdr hloop
    · rw [hloop] at hcontra
      injection hcontra

/-- Witness for C3: a header lacking `he` raises the SchemaError naming
the found columns; a complete `date,he,value` header never raises one. -/
theorem schema_error_dichotomy_witness :
    parseCSV_amil_wvpa "date,node\n2025-08-10,x" = .error (.schema ["date", "node"]) ∧
    parseCSV_amil_wvpa "date,he,value\n2025-08-10,1,5" ≠ .error (.schema ["date", "he", "value"]) := by
  constructor
  · exact (schema_error_dichotomy "date,node\n2025-08-10,x" "date,node" ["2025-08-10,x"]
      ["date", "node"] (by decide) (by decide)).1 (by decide)
  · exact (schema_error_dichotomy "date,he,value\n2025-08-10,1,5" "date,he,value"
      ["2025-08-10,1,5"] ["date", "he", "value"] (by decide) (by decide)).2
      (by decide) ["date", "he", "value"]

/-- The finite parsed epoch of the `k`-th descriptor text, if any: `none`
when no pattern matches or the matched components form an invalid date
(NaN), which the selection loop treats identically. -/
def effAt (texts : List String) (k : ℕ) : Option ℚ :=
  match parseAnyTimestamp (texts.getD k "") with
  | some (.num q) => some q
  | _ => none

theorem effAt_nil (k : ℕ) : effAt [] k = none := rfl

theorem effAt_cons_zero (t : String) (ts : List String) :
    effAt (t :: ts) 0 =
      (match parseAnyTimestamp t with
        | some (.num q) => some q
        | _ => none) := rfl

theorem effAt_cons_succ (t : String) (ts : List String) (k : ℕ) :
    effAt (t :: ts) (k + 1) = effAt ts k := rfl

theorem pickLoopAux_cons (t : String) (ts : List String) (i : ℕ) (bi : ℤ) (be : ℚ) :
    pickLoopAux (t :: ts) i bi be =
      (match parseAnyTimestamp t with
        | some (.num q) =>
          if be < q then pickLoopAux ts (i + 1) (i : ℤ) q
          else pickLoopAux ts (i + 1) bi be
        | _ => pickLoopAux ts (i + 1) bi be) := rfl

/-- Full characterization of the best-timestamp scan: either no scanned
epoch beats the incoming `bestEpoch` and the accumulator is returned
unchanged, or the scan returns the position `i + j` of the **first**
descriptor attaining the maximal epoch among those beating `bestEpoch`,
together with that epoch. -/
theorem pickLoopAux_spec (ts : List String) (i : ℕ) (bi : ℤ) (be : ℚ) :
    (pickLoopAux ts i bi be = (bi, be) ∧
      ∀ k q, effAt ts k = some q → q ≤ be) ∨
    (∃ j qj, effAt ts j = some qj ∧ j < ts.length ∧
      pickLoopAux ts i bi be = (((i + j : ℕ) : ℤ), qj) ∧ be < qj ∧
      (∀ k q, k < j → effAt ts k = some q → q < qj) ∧
      (∀ k q, effAt ts k = some q → q ≤ qj)) := by
  induction ts generalizing i bi be with
  | nil =>
    left
    refine ⟨rfl, ?_⟩
    intro k q h
    rw [effAt_nil] at h
    exact Option.noConfusion h
  | cons t ts ih =>
    rcases het : parseAnyTimestamp t with _ | n
    case none =>
      have hstep : pickLoopAux (t :: ts) i bi be = pickLoopAux ts (i + 1) bi be := by
        rw [pickLoopAux_cons, het]
      have hz : effAt (t :: ts) 0 = none := by
        rw [effAt_cons_zero, het]
      rcases ih (i + 1) bi be with ⟨heq, hub⟩ | ⟨j, qj, hjeff, hjlen, hjeq, hjlt, hlow, hup⟩
      · left
        refine ⟨by rw [hstep, heq], ?_⟩
        intro k q h
        match k with
        | 0 => rw [hz] at h; exact Option.noConfusion h
        | k + 1 => exact hub k q (by rwa [effAt_cons_succ] at h)
      · right
        refine ⟨j + 1, qj, by rwa [effAt_cons_succ],
          by simp only [List.length_cons]; omega, ?_, hjlt, ?_, ?_⟩
        · rw [hstep, hjeq]
          have hidx : i + 1 + j = i + (j + 1) := by omega
          rw [hidx]
        · intro k q hk h
          match k with
          | 0 => rw [hz] at h; exact Option.noConfusion h
          | k + 1 => exact hlow k q (by omega) (by rwa [effAt_cons_succ] at h)
        · intro k q h
          match k with
          | 0 => rw [hz] at h; exact Option.noConfusion h
          | k + 1 => exact hup k q (by rwa [effAt_cons_succ] at h)
    case some =>
      match n with
      | .nan | .inf | .ninf =>
        have hstep : pickLoopAux (t :: ts) i bi be = pickLoopAux ts (i + 1) bi be := by
          rw [pickLoopAux_cons, het]
        have hz : effAt (t :: ts) 0 = none := by
          rw [effAt_cons_zero, het]
        rcases ih (i + 1) bi be with ⟨heq, hub⟩ | ⟨j, qj, hjeff, hjlen, hjeq, hjlt, hlow, hup⟩
        · left
          refine ⟨by rw [hstep, heq], ?_⟩
          intro k q h
          match k with
          | 0 => rw [hz] at h; exact Option.noConfusion h
          | k + 1 => exact hub k q (by rwa [effAt_cons_succ] at h)
        · right
          refine ⟨j + 1, qj, by rwa [effAt_cons_succ],
            by simp only [List.length_cons]; omega, ?_, hjlt, ?_, ?_⟩
          · rw [hstep, hjeq]
            have hidx : i + 1 + j = i + (j + 1) := by omega
            rw [hidx]
          · intro k q hk h
            match k with
            | 0 => rw [hz] at h; exact Option.noConfusion h
            | k + 1 => exact hlow k q (by omega) (by rwa [effAt_cons_succ] at h)
          · intro k q h
            match k with
            | 0 => rw [hz] at h; exact Option.noConfusion h
            | k + 1 => exact hup k q (by rwa [effAt_cons_succ] at h)
      | .num q0 =>
        have hstep : pickLoopAux (t :: ts) i bi be =
            (if be < q0 then pickLoopAux ts (i + 1) (i : ℤ) q0
              else pickLoopAux ts (i + 1) bi be) := by
          rw [pickLoopAux_cons, het]
        have hz : effAt (t :: ts) 0 = some q0 := by
          rw [effAt_cons_zero, het]
        by_cases hlt : be < q0
        · rw [if_pos hlt] at hstep
          rcases ih (i + 1) (i : ℤ) q0 with ⟨heq, hub⟩ | ⟨j, qj, hjeff, hjlen, hjeq, hjlt, hlow, hup⟩
          · right
            refine ⟨0, q0, hz, by simp, ?_, hlt, ?_, ?_⟩
            · rw [hstep, heq]
              have hidx : (i : ℤ) = ((i + 0 : ℕ) : ℤ) := by omega
              rw [hidx]
            · intro k q hk h
              omega
            · intro k q h
              match k with
              | 0 =>
                rw [hz] at h
                injection h with h2
                rw [← h2]
              | k + 1 => exact hub k q (by rwa [effAt_cons_succ] at h)
          · right
            refine ⟨j + 1, qj, by rwa [effAt_cons_succ],
              by simp only [List.length_cons]; omega, ?_, lt_trans hlt hjlt, ?_, ?_⟩
            · rw [hstep, hjeq]
              have hidx : i + 1 + j = i + (j + 1) := by omega
              rw [hidx]
            · intro k q hk h
              match k with
              | 0 =>
                rw [hz] at h
                injection h with h2
                rw [← h2]
                exact hjlt
              | k + 1 => exact hlow k q (by omega) (by rwa [effAt_cons_succ] at h)
            · intro k q h
              match k with
              | 0 =>
                rw [hz] at h
                injection h with h2
                rw [← h2]
                exact le_of_lt hjlt
              | k + 1 => exact hup k q (by rwa [effAt_cons_succ] at h)
        · rw [if_neg hlt] at hstep
          have hle : q0 ≤ be := le_of_not_lt hlt
          rcases ih (i + 1) bi be with ⟨heq, hub⟩ | ⟨j, qj, hjeff, hjlen, hjeq, hjlt, hlow, hup⟩
          · left
            refine ⟨by rw [hstep, heq], ?_⟩
            intro k q h
            match k with
            | 0 =>
              rw [hz] at h
              injection h with h2
              rw [h2] at hle
              exact hle
            | k + 1 => exact hub k q (by rwa [effAt_cons_succ] at h)
          · right
            refine ⟨j + 1, qj, by rwa [effAt_cons_succ],
              by simp only [List.length_cons]; omega, ?_, hjlt, ?_, ?_⟩
            · rw [hstep, hjeq]
              have hidx : i + 1 + j = i + (j + 1) := by omega
              rw [hidx]
            · intro k q hk h
              match k with
              | 0 =>
                rw [hz] at h
                injection h with h2
                rw [← h2]
                exact lt_of_le_of_lt hle hjlt
              | k + 1 => exact hlow k q (by omega) (by rwa [effAt_cons_succ] at h)
            · intro k q h
              match k with
              | 0 =>
                rw [hz] at h
                injection h with h2
                rw [← h2]
                exact le_of_lt (lt_of_le_of_lt hle hjlt)
              | k + 1 => exact hup k q (by rwa [effAt_cons_succ] at h)

/-- C4 (amended) — If any descriptor's display text parses (under its own
date-order template) to an instant after the epoch (`> -1` ms, beating
the `-1` sentinel), the resolver succeeds via the ExplicitTimestamp
strategy and selects a descriptor whose parsed instant is maximal among
all parsed instants; in particular, for `10-08-2025 09:00:00` (DMY) vs
`2025-08-09 23:00:00` (YMD), the first is selected as newest (see the
witness).  Descriptors parsing strictly before the epoch can never win. -/
theorem explicit_timestamp_max_selection (texts : List String) (j : ℕ) (q : ℚ)
    (hj : effAt texts j = some q) (hq : -1 < q) :
    ∃ p, findTargetRowIndex false texts = .ok p ∧ p.pickedBy = "timestamp" ∧
      p.index < texts.length ∧
      ∃ qb, effAt texts p.index = some qb ∧ -1 < qb ∧
        ∀ k q2, effAt texts k = some q2 → q2 ≤ qb := by
  have hne : ¬ texts.length = 0 := by
    intro h0
    rw [List.length_eq_zero.mp h0, effAt_nil] at hj
    exact Option.noConfusion hj
  rcases pickLoopAux_spec texts 0 (-1) (-1) with ⟨_, hub⟩ | ⟨j2, qj, hjeff, hjlen, hjeq, hjlt, _, hup⟩
  · exact absurd (hub j q hj) (not_le.mpr hq)
  · refine ⟨⟨j2, texts.length, "timestamp"⟩, ?_, rfl, hjlen, qj, hjeff, hjlt, hup⟩
    simp only [findTargetRowIndex, hjeq, if_neg hne, Bool.false_eq_true, if_false]
    rw [if_neg (by simp : ¬((((0 + j2 : ℕ) : ℤ)) < 0))]
    simp

/-- Witness for C4 at the spec's concrete pair: the DMY text parses to
2025-08-10T09:00Z, the YMD text to 2025-08-09T23:00Z, and the resolver
picks index 0 by timestamp with the maximal instant. -/
theorem explicit_timestamp_max_selection_witness :
    findTargetRowIndex false ["10-08-2025 09:00:00", "2025-08-09 23:00:00"] =
      .ok ⟨0, 2, "timestamp"⟩ ∧
    effAt ["10-08-2025 09:00:00", "2025-08-09 23:00:00"] 0 = some 1754816400000 ∧
    effAt ["10-08-2025 09:00:00", "2025-08-09 23:00:00"] 1 = some 1754780400000 ∧
    (1754780400000 : ℚ) ≤ 1754816400000 := by
  obtain ⟨p, hp, hts, hlen, qb, hqb, hneg, hmax⟩ :=
    explicit_timestamp_max_selection ["10-08-2025 09:00:00", "2025-08-09 23:00:00"]
      0 1754816400000 (by decide) (by norm_num)
  have hres : findTargetRowIndex false ["10-08-2025 09:00:00", "2025-08-09 23:00:00"] =
      .ok ⟨0, 2, "timestamp"⟩ := by decide
  rw [hres] at hp
  injection hp with hp2
  subst hp2
  have hq0 : effAt ["10-08-2025 09:00:00", "2025-08-09 23:00:00"]
      (Pick.mk 0 2 "timestamp").index = some 1754816400000 := by decide
  rw [hq0] at hqb
  injection hqb with hqb2
  have hle := hmax 1 1754780400000 (by decide)
  rw [← hqb2] at hle
  exact ⟨hres, by decide, by decide, hle⟩

/-- C5 (amended) — In the ExplicitTimestamp strategy, whenever the
resolver selects by timestamp, every descriptor at a lower sequence
position than the selected one parses to a strictly smaller instant;
hence among descriptors tied at the maximal instant the resolver selects
the one with the LOWEST sequence position (the earliest in listing
order), not the highest. -/
theorem tie_break_lowest_position (texts : List String) (p : Pick)
    (hp : findTargetRowIndex false texts = .ok p) (hts : p.pickedBy = "timestamp") :
    ∀ k q qb, k < p.index → effAt texts k = some q →
      effAt texts p.index = some qb → q < qb := by
  by_cases hne : texts.length = 0
  · exfalso
    simp only [findTargetRowIndex, if_pos hne] at hp
    exact Except.noConfusion hp
  rcases pickLoopAux_spec texts 0 (-1) (-1) with ⟨heq, _⟩ | ⟨j2, qj, hjeff, hjlen, hjeq, _, hlow, _⟩
  · exfalso
    simp only [findTargetRowIndex, heq, if_neg hne, Bool.false_eq_true, if_false] at hp
    rw [if_pos (by norm_num : (-1 : ℤ) < 0)] at hp
    injection hp with hp2
    rw [← hp2] at hts
    have hts2 : ("fallback-last" : String) = "timestamp" := hts
    exact absurd hts2 (by decide)
  · have hp2 : p = ⟨j2, texts.length, "timestamp"⟩ := by
      simp only [findTargetRowIndex, hjeq, if_neg hne, Bool.false_eq_true, if_false] at hp
      rw [if_neg (by simp : ¬((((0 + j2 : ℕ) : ℤ)) < 0))] at hp
      injection hp with hp3
      rw [← hp3]
      simp
    rw [hp2]
    intro k q qb hk hq hqb
    have : effAt texts j2 = some qb := hqb
    rw [hjeff] at this
    injection this with h3
    rw [h3] at hlow
    exact hlow k q hk hq

/-- Witness for C5: with a smaller timestamp before a larger one, the
resolver picks index 1 by timestamp, and the theorem yields the strict
inequality for the earlier descriptor. -/
theorem tie_break_lowest_position_witness :
    findTargetRowIndex false ["01-01-2020 00:00:00", "01-01-2021 00:00:00"] =
      .ok ⟨1, 2, "timestamp"⟩ ∧
    (1577836800000 : ℚ) < 1609459200000 := by
  refine ⟨by decide, ?_⟩
  exact tie_break_lowest_position ["01-01-2020 00:00:00", "01-01-2021 00:00:00"]
    ⟨1, 2, "timestamp"⟩ (by decide) rfl 0 1577836800000 1609459200000
    (by norm_num) (by decide) (by decide)

theorem findNewestLoop_cons (t : String) (ts : List String) (i : ℕ) (bi : ℤ) (be : ℚ) :
    findNewestLoop (t :: ts) i bi be =
      (match
          (match searchAux (matchTS2At '-') t.data with
            | some (dd, mm, yyyy, H, M, S) => toEpochJS yyyy mm dd H M S
            | none => JSNum.num (-1)) with
        | JSNum.num q =>
          if be < q then findNewestLoop ts (i + 1) (i : ℤ) q
          else findNewestLoop ts (i + 1) bi be
        | _ => findNewestLoop ts (i + 1) bi be) := rfl

/-- C6 (amended) — For every non-empty descriptor sequence in which no
descriptor yields a parseable embedded timestamp, the resolver with a
positional fallback (`findTargetRowIndex` of `src/scrape.js`, equally
`pickRowIndex` of `src/unnamed/part_001`) does not fail: it selects the
highest sequence position with the `fallback-last` tag (and a warning
that order could not be confirmed), while the `findNewestRowIndex`
variant of `src/unnamed/part_000` fails with its
`Could not parse any timestamps` error instead. -/
theorem positional_fallback (texts : List String) (hne : texts ≠ [])
    (hnots : ∀ t ∈ texts, parseAnyTimestamp t = none) :
    findTargetRowIndex false texts =
      .ok ⟨texts.length - 1, texts.length, "fallback-last"⟩ ∧
    findNewestRowIndex texts = .error .noTimestamps := by
  have hlen : ¬ texts.length = 0 := by
    simpa [List.length_eq_zero] using hne
  have hpick : ∀ ts2 : List String, (∀ t ∈ ts2, parseAnyTimestamp t = none) →
      ∀ i bi be, pickLoopAux ts2 i bi be = (bi, be) := by
    intro ts2 h2
    induction ts2 with
    | nil => intro i bi be; rfl
    | cons t ts ih =>
      intro i bi be
      rw [pickLoopAux_cons, h2 t (List.mem_cons_self t ts)]
      exact ih (fun t2 ht2 => h2 t2 (List.mem_cons_of_mem t ht2)) (i + 1) bi be
  have hnewest : ∀ ts2 : List String, (∀ t ∈ ts2, parseAnyTimestamp t = none) →
      ∀ i bi be, -1 ≤ be → findNewestLoop ts2 i bi be = (bi, be) := by
    intro ts2 h2
    induction ts2 with
    | nil => intro i bi be _; rfl
    | cons t ts ih =>
      intro i bi be hbe
      have hdmy : searchAux (matchTS2At '-') t.data = none := by
        have hx := h2 t (List.mem_cons_self t ts)
        unfold parseAnyTimestamp at hx
        rcases hs : searchAux (matchTS2At '-') t.data with _ | g
        · rfl
        · exfalso
          rw [hs] at hx
          obtain ⟨a, b, c, d, e, f⟩ := g
          exact Option.noConfusion hx
      have hstep : findNewestLoop (t :: ts) i bi be =
          (if be < -1 then findNewestLoop ts (i + 1) (i : ℤ) (-1)
            else findNewestLoop ts (i + 1) bi be) := by
        rw [findNewestLoop_cons, hdmy]
      rw [hstep, if_neg (not_lt.mpr hbe)]
      exact ih (fun t2 ht2 => h2 t2 (List.mem_cons_of_mem t ht2)) (i + 1) bi be hbe
  constructor
  · simp only [findTargetRowIndex, hpick texts hnots 0 (-1) (-1), if_neg hlen,
      Bool.false_eq_true, if_false]
    rw [if_pos (by norm_num : (-1 : ℤ) < 0)]
  · simp only [findNewestRowIndex, hnewest texts hnots 0 (-1) (-1) (by norm_num), if_neg hlen]
    rw [if_pos (by norm_num : (-1 : ℤ) < 0)]

/-- Witness for C6 at two timestamp-free texts. -/
theorem positional_fallback_witness :
    findTargetRowIndex false ["forecast_a.csv", "forecast_b.csv"] =
      .ok ⟨1, 2, "fallback-last"⟩ ∧
    findNewestRowIndex ["forecast_a.csv", "forecast_b.csv"] = .error .noTimestamps :=
  positional_fallback ["forecast_a.csv", "forecast_b.csv"] (by decide) (by decide)

theorem digitChar_ne_marker (n : ℕ) : digitChar n ≠ '⚠' := by
  unfold digitChar
  split <;> decide

theorem natToDecAux_mem (fuel n : ℕ) (acc : List Char) (c : Char)
    (h : c ∈ natToDecAux fuel n acc) : c ∈ acc ∨ ∃ m, c = digitChar m := by
  induction fuel generalizing n acc with
  | zero => exact Or.inl h
  | succ fuel ih =>
    unfold natToDecAux at h
    split at h
    · rcases List.mem_cons.mp h with h2 | h2
      · exact Or.inr ⟨n, h2⟩
      · exact Or.inl h2
    · rcases ih (n / 10) (digitChar (n % 10) :: acc) h with h2 | h2
      · rcases List.mem_cons.mp h2 with h3 | h3
        · exact Or.inr ⟨n % 10, h3⟩
        · exact Or.inl h3
      · exact Or.inr h2

theorem natToDec_no_marker (n : ℕ) : '⚠' ∉ (natToDec n).data := by
  intro h
  rcases natToDecAux_mem (n + 1) n [] '⚠' h with h2 | ⟨m, h2⟩
  · exact List.not_mem_nil _ h2
  · exact digitChar_ne_marker m h2.symm

theorem trimTrailingZeros_subset (l : List Char) (c : Char)
    (h : c ∈ trimTrailingZeros l) : c ∈ l := by
  unfold trimTrailingZeros at h
  rw [List.mem_reverse] at h
  have := (List.dropWhile_sublist (l := l.reverse) (fun x => x = '0')).subset h
  rwa [List.mem_reverse] at this

theorem padZerosTo_mem (k : ℕ) (s : String) (c : Char)
    (h : c ∈ (padZerosTo k s).data) : c = '0' ∨ c ∈ s.data := by
  unfold padZerosTo at h
  split at h
  · rcases List.mem_append.mp h with h2 | h2
    · exact Or.inl (List.eq_of_mem_replicate h2)
    · exact Or.inr h2
  · exact Or.inr h

theorem no_marker_append (a b : String) (ha : '⚠' ∉ a.data) (hb : '⚠' ∉ b.data) :
    '⚠' ∉ (a ++ b).data := by
  rw [string_data_append]
  intro h
  rcases List.mem_append.mp h with h2 | h2
  · exact ha h2
  · exact hb h2

theorem sign_no_marker (b : Bool) : '⚠' ∉ (if b then "-" else "").data := by
  cases b <;> decide

theorem ratToDec_no_marker (q : ℚ) : '⚠' ∉ (ratToDec q).data := by
  unfold ratToDec
  have hsgn : '⚠' ∉ (if q.num < 0 then "-" else "").data := by
    split <;> decide
  have hdot : '⚠' ∉ (".".data) := by decide
  have hslash : '⚠' ∉ ("/".data) := by decide
  have hfrac : ∀ k n, '⚠' ∉ (String.mk (trimTrailingZeros (padZerosTo k (natToDec n)).data)).data := by
    intro k n h
    have h2 := trimTrailingZeros_subset _ _ h
    rcases padZerosTo_mem _ _ _ h2 with h3 | h3
    · exact absurd h3 (by decide)
    · exact natToDec_no_marker _ h3
  dsimp only
  split
  · split
    · exact no_marker_append _ _ hsgn (natToDec_no_marker _)
    · split
      · exact no_marker_append _ _ hsgn (natToDec_no_marker _)
      · exact no_marker_append _ _
          (no_marker_append _ _ (no_marker_append _ _ hsgn (natToDec_no_marker _)) hdot)
          (hfrac _ _)
  · exact no_marker_append _ _
      (no_marker_append _ _ (no_marker_append _ _ hsgn (natToDec_no_marker _)) hslash)
      (natToDec_no_marker _)

theorem numToString_no_marker (x : JSNum) : '⚠' ∉ (numToString x).data := by
  cases x with
  | nan => decide
  | inf => decide
  | ninf => decide
  | num q => exact ratToDec_no_marker q

theorem padStart2_no_marker (s : String) (hs : '⚠' ∉ s.data) :
    '⚠' ∉ (padStart2 s).data := by
  unfold padStart2
  split
  · intro h
    rcases List.mem_append.mp h with h2 | h2
    · exact absurd (List.eq_of_mem_replicate h2) (by decide)
    · exact hs h2
  · exact hs

theorem rowLine_marker (threshold : JSNum) (r : Rec8) :
    containsMarker (rowLine threshold r) = jsGT r.forecast threshold := by
  unfold rowLine containsMarker
  have hbase : '⚠' ∉ ("- " ++ padStart2 (numToString r.he) ++ ":00: " ++
      numToString r.forecast).data := by
    refine no_marker_append _ _ (no_marker_append _ _ (no_marker_append _ _ (by decide)
      (padStart2_no_marker _ (numToString_no_marker _))) (by decide))
      (numToString_no_marker _)
  by_cases hgt : jsGT r.forecast threshold
  · rw [hgt, if_pos rfl]
    have hmem : '⚠' ∈ ("- " ++ padStart2 (numToString r.he) ++ ":00: " ++
        numToString r.forecast ++ " ⚠️").data := by
      rw [string_data_append]
      exact List.mem_append.mpr (Or.inr (by decide))
    exact (List.elem_iff.mpr hmem : _)
  · rw [Bool.not_eq_true] at hgt
    rw [hgt]
    rw [if_neg (by simp)]
    have hnm : '⚠' ∉ ("- " ++ padStart2 (numToString r.he) ++ ":00: " ++
        numToString r.forecast ++ "").data := by
      exact no_marker_append _ _ hbase (by decide)
    rw [Bool.eq_false_iff]
    intro h
    exact hnm (List.elem_iff.mp h)

theorem groupAppend_flatten_perm {α : Type} (m : List (String × List α)) (k : String) (x : α) :
    (((groupAppend m k x).map Prod.snd).flatten).Perm ((m.map Prod.snd).flatten ++ [x]) := by
  induction m with
  | nil => simp [groupAppend]
  | cons g m ih =>
    obtain ⟨k2, xs⟩ := g
    by_cases hk : k2 = k
    · simp only [groupAppend, if_pos hk, List.map_cons, List.flatten_cons]
      rw [List.append_assoc, List.append_assoc]
      exact List.Perm.append_left xs List.perm_append_comm
    · simp only [groupAppend, if_neg hk, List.map_cons, List.flatten_cons]
      rw [List.append_assoc]
      exact List.Perm.append_left xs ih

theorem groupByKey_flatten_perm {α : Type} (key : α → String) (l : List α) :
    (((groupByKey key l).map Prod.snd).flatten).Perm l := by
  have hgen : ∀ (l : List α) (m : List (String × List α)),
      (((l.foldl (fun m2 x => groupAppend m2 (key x) x) m).map Prod.snd).flatten).Perm
        ((m.map Prod.snd).flatten ++ l) := by
    intro l
    induction l with
    | nil => intro m; simp
    | cons x l ih =>
      intro m
      have h1 := ih (groupAppend m (key x) x)
      refine h1.trans ?_
      have h2 := List.Perm.append_right l (groupAppend_flatten_perm m (key x) x)
      refine h2.trans ?_
      rw [List.append_assoc]
      exact List.Perm.refl _
  have := hgen l []
  simpa [groupByKey] using this

/-- C8 (amended) — For every parsed row set: the summary-line count (the
number interpolated into the prepended `N hours require curtailment`
line) equals the length of the flat `HH:00 → price` list, both counting
the above-threshold rows among the first 24; while the number of
per-row report lines carrying the visual alert marker equals the number
of above-threshold rows among **all** rendered rows.  The three counts
coincide exactly when no row beyond the 24th is above the threshold
(see the counterexample for the divergence). -/
theorem report_count_roundtrip (fn : String) (rows : List Rec8) (threshold : JSNum) :
    (buildMessage fn rows threshold).hits24Count = (hitsListStrings rows threshold).length ∧
    (buildMessage fn rows threshold).hits24Count =
      ((rows.take 24).filter (fun r => jsGT r.forecast threshold)).length ∧
    (msgLines fn rows threshold).getD 1 "" =
      natToDec (buildMessage fn rows threshold).hits24Count ++
        " hours require curtailment on the forecasted prices (first 24)." ∧
    ((rowLinesOf rows threshold).filter containsMarker).length =
      (rows.filter (fun r => jsGT r.forecast threshold)).length := by
  refine ⟨by simp [buildMessage, hitsListStrings], rfl, rfl, ?_⟩
  have h1 : rowLinesOf rows threshold =
      (((groupByKey Rec8.date rows).map Prod.snd).flatten).map (rowLine threshold) := by
    unfold rowLinesOf
    rw [List.map_flatten, List.map_map]
    rfl
  rw [h1, ← List.countP_eq_length_filter, ← List.countP_eq_length_filter, List.countP_map]
  have h2 : List.countP (containsMarker ∘ rowLine threshold)
      (((groupByKey Rec8.date rows).map Prod.snd).flatten) =
      List.countP (fun r => jsGT r.forecast threshold)
        (((groupByKey Rec8.date rows).map Prod.snd).flatten) := by
    refine List.countP_congr ?_
    intro r _
    simp [Function.comp, rowLine_marker]
  rw [h2]
  exact (groupByKey_flatten_perm Rec8.date rows).countP_eq _

theorem first48Row_inv (iDate iHe iFc : ℤ) (threshold : JSNum) (line : String) (r : Rec48)
    (h : first48Row iDate iHe iFc threshold line = some r) :
    r.date ≠ "" ∧ jsIsNaN r.he = false ∧ jsIsNaN r.forecast = false := by
  unfold first48Row at h
  dsimp only at h
  split at h
  · exact Option.noConfusion h
  · rename_i hcond
    push_neg at hcond
    injection h with h2
    rw [← h2]
    refine ⟨hcond.1, ?_, ?_⟩
    · rw [Bool.eq_false_iff]
      exact hcond.2.1
    · rw [Bool.eq_false_iff]
      exact hcond.2.2

/-- C9 (amended) — Every row emitted by `parseCsvFirst48` has a non-blank
date, a non-NaN hour-ending value, and a non-NaN price: rows failing any
of these are silently skipped.  No further invariant holds — the range
[1,24] for the hour-ending value and finiteness of the price are not
enforced (see the counterexample). -/
theorem normalized_row_invariant (limit : ℕ) (threshold : JSNum) (raw : String)
    (res : Analysis48) (h : parseCsvFirst48 limit threshold raw = .ok res) :
    ∀ r ∈ res.list, r.date ≠ "" ∧ jsIsNaN r.he = false ∧ jsIsNaN r.forecast = false := by
  unfold parseCsvFirst48 at h
  rcases hl : (splitLinesJS (stripBOM raw)).filter (fun l => !(jsStrTrim l).data.isEmpty) with
    _ | ⟨l0, rest⟩
  · rw [hl] at h
    injection h with h2
    rw [← h2]
    intro r hr
    exact absurd hr (List.not_mem_nil r)
  · rcases rest with _ | ⟨l1, rest2⟩
    · rw [hl] at h
      injection h with h2
      rw [← h2]
      intro r hr
      exact absurd hr (List.not_mem_nil r)
    · rw [hl] at h
      dsimp only at h
      split at h
      · exact Except.noConfusion h
      · injection h with h2
        rw [← h2]
        intro r hr
        simp only [List.mem_filterMap] at hr
        obtain ⟨line, _, hline⟩ := hr
        exact first48Row_inv _ _ _ _ _ _ hline

/-- Witness for C9 on a well-formed row. -/
theorem normalized_row_invariant_witness :
    ("2025-08-10" : String) ≠ "" ∧ jsIsNaN (JSNum.num 2) = false ∧
      jsIsNaN (JSNum.num 50) = false :=
  normalized_row_invariant 48 (.num 80) "date,he,forecast\n2025-08-10,2,50"
    ⟨["date", "he", "forecast"],
     [("2025-08-10", [⟨"2025-08-10", .num 2, "02:00", .num 50, false⟩])],
     [⟨"2025-08-10", .num 2, "02:00", .num 50, false⟩], 0⟩ (by decide)
    ⟨"2025-08-10", .num 2, "02:00", .num 50, false⟩ (by decide)

/-- Counterexample to C3 as stated: the header `date,he,value` contains
all required columns in the claim's sense (`date`, `he`, and one of
`forecast`/`value`), and the `src/scrape.js` normalizer indeed accepts it
without a SchemaError — but the `parseCsvFirst48` normalizer of
`src/unnamed/part_000` (also cited by the claim) accepts only `forecast`
as the price column and raises its SchemaError naming the found columns
on this very header. -/
theorem schema_error_counterexample :
    parseCsvFirst48 48 (.num 80) "date,he,value\n2025-08-10,1,5" =
      .error (.missingColumns ["date", "he", "value"]) ∧
    parseCSV_amil_wvpa "date,he,value\n2025-08-10,1,5" =
      .ok [⟨1754787600000, .num 5⟩] := by
  refine ⟨by decide, by decide⟩
